import Mathlib

/-
Verification of the aggregation core of the Meezan Bank statement visualizer
(src/app.py) against its natural-language specification.

The pandas pipeline is embedded shallowly:
* a DataFrame of transactions becomes a `List Tx`;
* monetary values (PKR decimals) become rationals `ℚ`;
* `YYYY-MM-DD` / `YYYY-MM` / `YYYY` bucket strings become the natural numbers
  `yyyymmdd` / `yyyymm` / `yyyy`, whose numeric order coincides with the
  lexicographic order pandas uses on the formatted strings;
* `df.groupby(k).agg(...)` (with pandas' default `sort=True`) becomes a map
  over the sorted deduplicated list of keys, each key paired with the
  filtered group;
* `Series.idxmax` / `Series.idxmin` become first-occurrence max/min scans;
* `DataFrame.nlargest(n, col)` (default `keep='first'`) becomes a stable
  descending merge sort followed by `take n`;
* descriptions become `List Char`, and the payee-extraction regexes of
  `extract_payee` become explicit matching functions with Python's
  leftmost-search and greedy/backtracking semantics for the patterns
  `LITERAL\s+([^-]+)`.
-/

set_option maxRecDepth 2000

namespace Meezan

/-! ### Currency conversion (src/app.py lines 13, 40-45) -/

inductive Currency
  | USD
  | PKR
deriving DecidableEq

/-- Fixed conversion rate from src/app.py line 13: 1 USD = 280 PKR. -/
def EXCHANGE_RATE : ℚ := 280

/-- Embedding of `convert_amount` (src/app.py lines 40-45): amounts are stored
in PKR (the base currency); when the display currency is USD the amount is
divided by the fixed rate, otherwise it is returned unchanged. -/
def convert_amount (c : Currency) (amount_pkr : ℚ) : ℚ :=
  if c = Currency.USD then amount_pkr / EXCHANGE_RATE else amount_pkr

/-! ### Transactions and summary metrics (src/app.py lines 47-79, 116-118) -/

/-- One parsed row of the statement: the date is encoded as the number
`yyyymmdd` (numeric order = lexicographic order of the `YYYY-MM-DD` string),
the description is the raw text, the amount is the signed PKR value. -/
structure Tx where
  date : Nat
  description : List Char
  amount : ℚ
deriving DecidableEq

/-- Bucket key for grouping by `Date_Formatted` (src/app.py line 116). -/
def dayKey (t : Tx) : Nat := t.date

/-- Bucket key for grouping by `Month` = `YYYY-MM` (src/app.py line 118). -/
def monthKey (t : Tx) : Nat := t.date / 100

/-- Bucket key for grouping by `Year` (src/app.py line 117). -/
def yearKey (t : Tx) : Nat := t.date / 10000

/-- Embedding of `total_income_pkr` (src/app.py line 67): sum of the amounts
of the transactions with positive amount. -/
def total_income_pkr (df : List Tx) : ℚ :=
  ((df.filter (fun t => 0 < t.amount)).map Tx.amount).sum

/-- Embedding of `total_expenses_pkr` (src/app.py line 72): absolute value of
the sum of the amounts of the transactions with negative amount. -/
def total_expenses_pkr (df : List Tx) : ℚ :=
  |((df.filter (fun t => t.amount < 0)).map Tx.amount).sum|

/-- Embedding of `net_flow_pkr` (src/app.py line 77): sum of all amounts. -/
def net_flow_pkr (df : List Tx) : ℚ :=
  (df.map Tx.amount).sum

lemma sum_pos_add_sum_neg (df : List Tx) :
    ((df.filter (fun t => 0 < t.amount)).map Tx.amount).sum
      + ((df.filter (fun t => t.amount < 0)).map Tx.amount).sum
      = (df.map Tx.amount).sum := by
  induction df with
  | nil => simp
  | cons t l ih =>
    by_cases h1 : 0 < t.amount
    · have h2 : ¬ t.amount < 0 := by linarith
      simp only [List.filter_cons]
      simp [h1, h2]
      linarith
    · by_cases h2 : t.amount < 0
      · simp only [List.filter_cons]
        simp [h1, h2]
        linarith
      · have h3 : t.amount = 0 := le_antisymm (not_lt.mp h1) (not_lt.mp h2)
        simp only [List.filter_cons]
        simp [h1, h2, h3]
        linarith

lemma sum_neg_filter_nonpos (df : List Tx) :
    ((df.filter (fun t => t.amount < 0)).map Tx.amount).sum ≤ 0 := by
  induction df with
  | nil => simp
  | cons t l ih =>
    by_cases h : t.amount < 0
    · simp only [List.filter_cons]
      simp [h]
      linarith
    · simp only [List.filter_cons]
      simp [h]
      linarith

lemma income_sub_expenses_pkr (df : List Tx) :
    total_income_pkr df - total_expenses_pkr df = net_flow_pkr df := by
  unfold total_income_pkr total_expenses_pkr net_flow_pkr
  rw [abs_of_nonpos (sum_neg_filter_nonpos df)]
  linarith [sum_pos_add_sum_neg df]

/-- C1: for every transaction set and every display currency, the summary
metrics of src/app.py lines 66-79 satisfy
`total_income - total_expenses = net_flow`, where `total_income` sums the
positive amounts, `total_expenses` is the absolute value of the sum of the
negative amounts, and `net_flow` is the sum of all amounts (no
transfer-exclusion policy exists in the code). -/
theorem C1_income_minus_expenses_eq_net_flow (c : Currency) (df : List Tx) :
    convert_amount c (total_income_pkr df) - convert_amount c (total_expenses_pkr df)
      = convert_amount c (net_flow_pkr df) := by
  have key := income_sub_expenses_pkr df
  cases c with
  | USD =>
    show total_income_pkr df / EXCHANGE_RATE - total_expenses_pkr df / EXCHANGE_RATE
        = net_flow_pkr df / EXCHANGE_RATE
    rw [div_sub_div_same, key]
  | PKR =>
    simpa [convert_amount] using key

/-! ### Grouped expense rollups (src/app.py lines 121-133, 282-290, 366-372) -/

/-- One row of a `groupby(...).agg({'Amount':'sum','Description':'count'})`
result after the absolute-value step: the bucket key, the bucket's
expenditure total (`Expenditure`, a PKR value) and its transaction count. -/
structure AggRow (κ : Type) where
  key : κ
  total : ℚ
  count : Nat
deriving DecidableEq

/-- Insertion of a key into a strictly sorted duplicate-free key list. -/
def sortedInsert {κ : Type} [LinearOrder κ] (k : κ) : List κ → List κ
  | [] => [k]
  | x :: xs =>
    if k < x then k :: x :: xs
    else if k = x then x :: xs
    else x :: sortedInsert k xs

/-- Sorted deduplicated key list: the index produced by a pandas
`groupby(key)` (pandas sorts the group keys, default `sort=True`). -/
def sortedKeys {κ : Type} [LinearOrder κ] : List κ → List κ
  | [] => []
  | x :: xs => sortedInsert x (sortedKeys xs)

lemma mem_sortedInsert {κ : Type} [LinearOrder κ] (k a : κ) (l : List κ) :
    a ∈ sortedInsert k l ↔ a = k ∨ a ∈ l := by
  induction l with
  | nil => simp [sortedInsert]
  | cons x xs ih =>
    by_cases h1 : k < x
    · simp [sortedInsert, h1]
    · by_cases h2 : k = x
      · subst h2
        simp [sortedInsert, h1]
      · simp [sortedInsert, h1, h2, ih]
        tauto

lemma pairwise_sortedInsert {κ : Type} [LinearOrder κ] (k : κ) (l : List κ)
    (hl : l.Pairwise (· < ·)) : (sortedInsert k l).Pairwise (· < ·) := by
  induction l with
  | nil => simp [sortedInsert]
  | cons x xs ih =>
    rcases List.pairwise_cons.mp hl with ⟨hx, hxs⟩
    by_cases h1 : k < x
    · rw [sortedInsert, if_pos h1]
      refine List.pairwise_cons.mpr ⟨?_, hl⟩
      intro b hb
      rcases List.mem_cons.mp hb with rfl | hb
      · exact h1
      · exact lt_trans h1 (hx b hb)
    · by_cases h2 : k = x
      · rw [sortedInsert, if_neg h1, if_pos h2]
        exact hl
      · rw [sortedInsert, if_neg h1, if_neg h2]
        refine List.pairwise_cons.mpr ⟨?_, ih hxs⟩
        intro b hb
        rcases (mem_sortedInsert k b xs).mp hb with rfl | hb
        · exact lt_of_le_of_ne (not_lt.mp h1) (Ne.symm h2)
        · exact hx b hb

lemma mem_sortedKeys {κ : Type} [LinearOrder κ] (l : List κ) (a : κ) :
    a ∈ sortedKeys l ↔ a ∈ l := by
  induction l with
  | nil => simp [sortedKeys]
  | cons x xs ih =>
    rw [sortedKeys, mem_sortedInsert, ih, List.mem_cons]

lemma pairwise_sortedKeys {κ : Type} [LinearOrder κ] (l : List κ) :
    (sortedKeys l).Pairwise (· < ·) := by
  induction l with
  | nil => simp [sortedKeys]
  | cons x xs ih => exact pairwise_sortedInsert x _ ih

lemma nodup_sortedKeys {κ : Type} [LinearOrder κ] (l : List κ) :
    (sortedKeys l).Nodup :=
  (pairwise_sortedKeys l).imp ne_of_lt

/-- Embedding of the expense rollups of src/app.py: restrict to expense rows
(`df[df['Amount'] < 0]`), group them by the bucket key (sorted group keys),
and per bucket report the absolute value of the summed amounts (the
`Expenditure` column, lines 127/288/371) and the row count (the
`'Description': 'count'` aggregate). -/
def groupRollup {κ : Type} [LinearOrder κ] (key : Tx → κ) (df : List Tx) :
    List (AggRow κ) :=
  let ex := df.filter (fun t => t.amount < 0)
  (sortedKeys (ex.map key)).map (fun k =>
    { key := k,
      total := |((ex.filter (fun t => key t = k)).map Tx.amount).sum|,
      count := (ex.filter (fun t => key t = k)).length })

/-- Daily expense rollup `daily_expenses_pkr` (src/app.py lines 121-133). -/
def daily_expenses_pkr (df : List Tx) : List (AggRow Nat) :=
  groupRollup dayKey df

/-- Monthly expense rollup (src/app.py lines 366-372). -/
def monthly_expenses_pkr (df : List Tx) : List (AggRow Nat) :=
  groupRollup monthKey df

/-- Yearly expense rollup `yearly_expenses_pkr` (src/app.py lines 282-290). -/
def yearly_expenses_pkr (df : List Tx) : List (AggRow Nat) :=
  groupRollup yearKey df

lemma sum_map_add_rat {κ : Type} (ks : List κ) (A B : κ → ℚ) :
    (ks.map (fun k => A k + B k)).sum = (ks.map A).sum + (ks.map B).sum := by
  induction ks with
  | nil => simp
  | cons x xs ih =>
    simp only [List.map_cons, List.sum_cons, ih]
    ring

lemma sum_map_neg_rat {κ : Type} (ks : List κ) (A : κ → ℚ) :
    (ks.map (fun k => -(A k))).sum = -((ks.map A).sum) := by
  induction ks with
  | nil => simp
  | cons x xs ih =>
    simp only [List.map_cons, List.sum_cons, ih]
    ring

lemma sum_map_ite_zero {κ : Type} [DecidableEq κ] (xs : List κ) (a : κ) (c : ℚ)
    (h : a ∉ xs) : (xs.map (fun k => if a = k then c else 0)).sum = 0 := by
  apply List.sum_eq_zero
  intro x hx
  rcases List.mem_map.mp hx with ⟨k, hk, rfl⟩
  rw [if_neg]
  rintro rfl
  exact h hk

lemma sum_map_ite {κ : Type} [DecidableEq κ] (ks : List κ) (a : κ) (c : ℚ)
    (hnd : ks.Nodup) (ha : a ∈ ks) :
    (ks.map (fun k => if a = k then c else 0)).sum = c := by
  induction ks with
  | nil => cases ha
  | cons x xs ih =>
    rcases List.nodup_cons.mp hnd with ⟨hx, hxs⟩
    rcases List.mem_cons.mp ha with rfl | h
    · simp only [List.map_cons, List.sum_cons, if_pos rfl]
      rw [sum_map_ite_zero xs a c hx]
      simp
    · have hax : a ≠ x := by
        rintro rfl
        exact hx h
      simp only [List.map_cons, List.sum_cons, if_neg hax]
      rw [ih hxs h]
      ring

/-- Summing the per-group sums over a duplicate-free covering key list gives
the total sum: grouping partitions the rows. -/
lemma sum_map_sum_filter {κ : Type} [DecidableEq κ] (key : Tx → κ) (f : Tx → ℚ) :
    ∀ (l : List Tx) (ks : List κ), ks.Nodup → (∀ t ∈ l, key t ∈ ks) →
      (ks.map (fun k => ((l.filter (fun t => key t = k)).map f).sum)).sum
        = (l.map f).sum := by
  intro l
  induction l with
  | nil =>
    intro ks _ _
    simp
  | cons t l ih =>
    intro ks hnd hcov
    have ht : key t ∈ ks := hcov t (List.mem_cons_self t l)
    have hstep : ks.map (fun k => (((t :: l).filter (fun x => key x = k)).map f).sum)
        = ks.map (fun k => (if key t = k then f t else 0)
            + ((l.filter (fun x => key x = k)).map f).sum) := by
      apply List.map_congr_left
      intro k _
      by_cases h : key t = k
      · simp [List.filter_cons, h]
      · simp [List.filter_cons, h]
    rw [hstep, sum_map_add_rat]
    have h1 : (ks.map (fun k => if key t = k then f t else 0)).sum = f t :=
      sum_map_ite ks (key t) (f t) hnd ht
    have h2 := ih ks hnd (fun x hx => hcov x (List.mem_cons_of_mem t hx))
    rw [h1, h2]
    simp

lemma sum_map_amount_nonpos (l : List Tx) (h : ∀ t ∈ l, t.amount < 0) :
    (l.map Tx.amount).sum ≤ 0 := by
  induction l with
  | nil => simp
  | cons t ts ih =>
    simp only [List.map_cons, List.sum_cons]
    have h1 := h t (List.mem_cons_self t ts)
    have h2 := ih (fun x hx => h x (List.mem_cons_of_mem t hx))
    linarith

/-- The bucket totals of any expense rollup sum to the expense total. -/
lemma rollup_total_sum {κ : Type} [LinearOrder κ] (key : Tx → κ) (df : List Tx) :
    ((groupRollup key df).map AggRow.total).sum = total_expenses_pkr df := by
  unfold groupRollup total_expenses_pkr
  set ex := df.filter (fun t => t.amount < 0) with hex
  have hneg : ∀ t ∈ ex, t.amount < 0 := by
    intro t ht
    have := List.of_mem_filter ht
    simpa using this
  rw [List.map_map]
  have habs : (sortedKeys (ex.map key)).map
        ((fun r : AggRow κ => r.total) ∘ (fun k =>
          ({ key := k,
             total := |((ex.filter (fun t => key t = k)).map Tx.amount).sum|,
             count := (ex.filter (fun t => key t = k)).length } : AggRow κ)))
      = (sortedKeys (ex.map key)).map (fun k =>
          -(((ex.filter (fun t => key t = k)).map Tx.amount).sum)) := by
    apply List.map_congr_left
    intro k _
    show |((ex.filter (fun t => key t = k)).map Tx.amount).sum| = _
    apply abs_of_nonpos
    apply sum_map_amount_nonpos
    intro t ht
    exact hneg t (List.mem_of_mem_filter ht)
  rw [habs, sum_map_neg_rat, sum_map_sum_filter key Tx.amount ex _
    (nodup_sortedKeys _) (fun t ht => (mem_sortedKeys _ _).mpr (List.mem_map_of_mem key ht))]
  rw [abs_of_nonpos (sum_map_amount_nonpos ex hneg)]

/-- C2: for every transaction set with a non-empty daily expense rollup, the
per-bucket expenditure totals of `daily_expenses_pkr` (src/app.py lines
121-128) sum exactly to `total_expenses_pkr` (lines 71-74): the rollup
partitions the expense transactions with no double counting and no
omission. -/
theorem C2_rollup_partitions_expenses (df : List Tx)
    (_hne : daily_expenses_pkr df ≠ []) :
    ((daily_expenses_pkr df).map AggRow.total).sum = total_expenses_pkr df :=
  rollup_total_sum dayKey df

/-- Concrete two-day expense table used to instantiate C2. -/
def dfW2 : List Tx :=
  [⟨101, [], -5⟩, ⟨102, [], -7⟩, ⟨101, [], 3⟩]

/-- Witness for C2 at a concrete transaction set. -/
theorem C2_rollup_partitions_expenses_witness :
    daily_expenses_pkr dfW2 ≠ [] ∧
      ((daily_expenses_pkr dfW2).map AggRow.total).sum = total_expenses_pkr dfW2 :=
  ⟨by with_unfolding_all decide,
   C2_rollup_partitions_expenses dfW2 (by with_unfolding_all decide)⟩

/-! ### Summary tables with rounded averages (src/app.py lines 190-194, 350-352) -/

/-- Round half to even on rationals: the rounding that numpy (and hence
pandas `Series.round`) applies. -/
def roundHalfEven (x : ℚ) : ℤ :=
  if x - ⌊x⌋ = 1/2 then (if 2 ∣ ⌊x⌋ then ⌊x⌋ else ⌊x⌋ + 1) else round x

/-- Embedding of `Series.round(2)`: round to two decimal places. -/
def round2 (x : ℚ) : ℚ := (roundHalfEven (x * 100) : ℚ) / 100

/-- One displayed row of `daily_table` / `yearly_table`: bucket key, rounded
displayed expenditure, transaction count, and the reported per-transaction
average. -/
structure TableRow where
  key : Nat
  total : ℚ
  count : Nat
  avg : ℚ
deriving DecidableEq

/-- Embedding of `daily_table` (src/app.py lines 190-194): the last 30 rows
of the daily rollup (`tail(30)`), the displayed expenditure rounded to two
decimals, and `Average per Transaction` computed as the rounded displayed
expenditure divided by the count and rounded to two decimals. -/
def daily_table (c : Currency) (df : List Tx) : List TableRow :=
  ((daily_expenses_pkr df).drop ((daily_expenses_pkr df).length - 30)).map (fun r =>
    { key := r.key,
      total := round2 (convert_amount c r.total),
      count := r.count,
      avg := round2 (round2 (convert_amount c r.total) / (r.count : ℚ)) })

/-- Embedding of `yearly_table` (src/app.py lines 350-352): same computation
over all yearly rollup rows. -/
def yearly_table (c : Currency) (df : List Tx) : List TableRow :=
  (yearly_expenses_pkr df).map (fun r =>
    { key := r.key,
      total := round2 (convert_amount c r.total),
      count := r.count,
      avg := round2 (round2 (convert_amount c r.total) / (r.count : ℚ)) })

lemma rollup_count_pos {κ : Type} [LinearOrder κ] (key : Tx → κ) (df : List Tx) :
    ∀ r ∈ groupRollup key df, 0 < r.count := by
  intro r hr
  unfold groupRollup at hr
  rcases List.mem_map.mp hr with ⟨k, hk, rfl⟩
  rw [mem_sortedKeys] at hk
  rcases List.mem_map.mp hk with ⟨t, ht, rfl⟩
  have hmem : t ∈ (df.filter (fun t => t.amount < 0)).filter (fun x => key x = key t) := by
    rw [List.mem_filter]
    exact ⟨ht, by simp⟩
  exact List.length_pos_of_mem hmem

/-- Counterexample input for C3: three same-day expenses totalling 10 PKR. -/
def dfC3 : List Tx :=
  [⟨101, [], -3⟩, ⟨101, [], -3⟩, ⟨101, [], -4⟩]

/-- Counterexample to C3 as stated: on `dfC3` the daily table reports the
bucket total 10, count 3 and average 3.33, but 3.33 is not exactly 10 / 3 —
the reported average is the 2-decimal rounding of total / count, not the
exact quotient. -/
theorem C3_counterexample :
    daily_table Currency.PKR dfC3
        = [{ key := 101, total := 10, count := 3, avg := 333/100 }] ∧
      ¬ ((333 : ℚ)/100 = 10 / 3) := by
  constructor
  · with_unfolding_all decide
  · with_unfolding_all decide

/-- C3 amended: in every `daily_table` / `yearly_table` row, the reported
average equals the displayed (2-decimal rounded) bucket total divided by the
bucket count, rounded to 2 decimals; and no bucket with count 0 ever appears
in the output. -/
theorem C3_average_is_rounded_quotient (c : Currency) (df : List Tx) (r : TableRow)
    (hr : r ∈ daily_table c df ∨ r ∈ yearly_table c df) :
    r.avg = round2 (r.total / (r.count : ℚ)) ∧ r.count ≠ 0 := by
  rcases hr with hr | hr
  · unfold daily_table at hr
    rcases List.mem_map.mp hr with ⟨a, ha, rfl⟩
    have hpos := rollup_count_pos dayKey df a (List.mem_of_mem_drop ha)
    exact ⟨rfl, Nat.pos_iff_ne_zero.mp hpos⟩
  · unfold yearly_table at hr
    rcases List.mem_map.mp hr with ⟨a, ha, rfl⟩
    have hpos := rollup_count_pos yearKey df a ha
    exact ⟨rfl, Nat.pos_iff_ne_zero.mp hpos⟩

/-- Concrete table row used to instantiate the amended C3. -/
def rW3 : TableRow := { key := 101, total := 10, count := 3, avg := 333/100 }

/-- Witness for the amended C3 at a concrete input. -/
theorem C3_average_is_rounded_quotient_witness :
    (rW3 ∈ daily_table Currency.PKR dfC3 ∨ rW3 ∈ yearly_table Currency.PKR dfC3) ∧
      (rW3.avg = round2 (rW3.total / (rW3.count : ℚ)) ∧ rW3.count ≠ 0) :=
  ⟨Or.inl (by with_unfolding_all decide),
   C3_average_is_rounded_quotient Currency.PKR dfC3 rW3
     (Or.inl (by with_unfolding_all decide))⟩

/-! ### Extremes selection (src/app.py lines 213-221, 333-342, 411-419) -/

/-- First-occurrence maximum scan: the row that pandas `Series.idxmax`
selects (src/app.py lines 215, 336, 413) — a later row replaces the current
best only when its value is strictly greater. -/
def firstMaxRow {κ : Type} (f : AggRow κ → ℚ) : List (AggRow κ) → Option (AggRow κ)
  | [] => none
  | r :: rs =>
    match firstMaxRow f rs with
    | none => some r
    | some m => if f r < f m then some m else some r

/-- First-occurrence minimum scan (`Series.idxmin`, src/app.py lines 220,
341, 418). -/
def firstMinRow {κ : Type} (f : AggRow κ → ℚ) : List (AggRow κ) → Option (AggRow κ)
  | [] => none
  | r :: rs =>
    match firstMinRow f rs with
    | none => some r
    | some m => if f m < f r then some m else some r

lemma firstMaxRow_spec {κ : Type} [LinearOrder κ] (f : AggRow κ → ℚ) (l : List (AggRow κ))
    (hl : l.Pairwise (fun a b => a.key < b.key)) (hne : l ≠ []) :
    ∃ h, firstMaxRow f l = some h ∧ h ∈ l ∧ (∀ q ∈ l, f q ≤ f h) ∧
      (∀ q ∈ l, f q = f h → h.key ≤ q.key) := by
  induction l with
  | nil => cases hne rfl
  | cons r rs ih =>
    rcases List.pairwise_cons.mp hl with ⟨hr, hrs⟩
    by_cases hnil : rs = []
    · subst hnil
      refine ⟨r, by simp [firstMaxRow], List.mem_cons_self r [], ?_, ?_⟩
      · intro q hq
        rcases List.mem_cons.mp hq with rfl | hq
        · exact le_refl _
        · cases hq
      · intro q hq _
        rcases List.mem_cons.mp hq with rfl | hq
        · exact le_refl _
        · cases hq
    · rcases ih hrs hnil with ⟨m, hm_eq, hm_mem, hm_max, hm_tie⟩
      by_cases hlt : f r < f m
      · refine ⟨m, ?_, List.mem_cons_of_mem r hm_mem, ?_, ?_⟩
        · simp [firstMaxRow, hm_eq, hlt]
        · intro q hq
          rcases List.mem_cons.mp hq with rfl | hq
          · exact le_of_lt hlt
          · exact hm_max q hq
        · intro q hq he
          rcases List.mem_cons.mp hq with rfl | hq
          · exact absurd he (ne_of_lt hlt)
          · exact hm_tie q hq he
      · refine ⟨r, ?_, List.mem_cons_self r rs, ?_, ?_⟩
        · simp [firstMaxRow, hm_eq, hlt]
        · intro q hq
          rcases List.mem_cons.mp hq with rfl | hq
          · exact le_refl _
          · exact le_trans (hm_max q hq) (not_lt.mp hlt)
        · intro q hq _
          rcases List.mem_cons.mp hq with rfl | hq
          · exact le_refl _
          · exact le_of_lt (hr q hq)

lemma firstMinRow_spec {κ : Type} [LinearOrder κ] (f : AggRow κ → ℚ) (l : List (AggRow κ))
    (hl : l.Pairwise (fun a b => a.key < b.key)) (hne : l ≠ []) :
    ∃ h, firstMinRow f l = some h ∧ h ∈ l ∧ (∀ q ∈ l, f h ≤ f q) ∧
      (∀ q ∈ l, f q = f h → h.key ≤ q.key) := by
  induction l with
  | nil => cases hne rfl
  | cons r rs ih =>
    rcases List.pairwise_cons.mp hl with ⟨hr, hrs⟩
    by_cases hnil : rs = []
    · subst hnil
      refine ⟨r, by simp [firstMinRow], List.mem_cons_self r [], ?_, ?_⟩
      · intro q hq
        rcases List.mem_cons.mp hq with rfl | hq
        · exact le_refl _
        · cases hq
      · intro q hq _
        rcases List.mem_cons.mp hq with rfl | hq
        · exact le_refl _
        · cases hq
    · rcases ih hrs hnil with ⟨m, hm_eq, hm_mem, hm_min, hm_tie⟩
      by_cases hlt : f m < f r
      · refine ⟨m, ?_, List.mem_cons_of_mem r hm_mem, ?_, ?_⟩
        · simp [firstMinRow, hm_eq, hlt]
        · intro q hq
          rcases List.mem_cons.mp hq with rfl | hq
          · exact le_of_lt hlt
          · exact hm_min q hq
        · intro q hq he
          rcases List.mem_cons.mp hq with rfl | hq
          · exact absurd he.symm (ne_of_lt hlt)
          · exact hm_tie q hq he
      · refine ⟨r, ?_, List.mem_cons_self r rs, ?_, ?_⟩
        · simp [firstMinRow, hm_eq, hlt]
        · intro q hq
          rcases List.mem_cons.mp hq with rfl | hq
          · exact le_refl _
          · exact le_trans (not_lt.mp hlt) (hm_min q hq)
        · intro q hq _
          rcases List.mem_cons.mp hq with rfl | hq
          · exact le_refl _
          · exact le_of_lt (hr q hq)

lemma rollup_pairwise_keys {κ : Type} [LinearOrder κ] (key : Tx → κ) (df : List Tx) :
    (groupRollup key df).Pairwise (fun a b => a.key < b.key) := by
  unfold groupRollup
  rw [List.pairwise_map]
  exact pairwise_sortedKeys _

/-- C4: on every expense rollup the highest and lowest bucket by displayed
total are selected by first-occurrence max/min scans over the key-sorted
rollup, so ties are broken deterministically in favour of the earliest
bucket key (src/app.py lines 213-221 and 333-342). -/
theorem C4_extremes_earliest_key_on_ties (κ : Type) [LinearOrder κ]
    (key : Tx → κ) (c : Currency) (df : List Tx)
    (hne : groupRollup key df ≠ []) :
    ∃ hi lo,
      firstMaxRow (fun r => convert_amount c r.total) (groupRollup key df) = some hi ∧
      firstMinRow (fun r => convert_amount c r.total) (groupRollup key df) = some lo ∧
      hi ∈ groupRollup key df ∧ lo ∈ groupRollup key df ∧
      (∀ q ∈ groupRollup key df,
        convert_amount c q.total ≤ convert_amount c hi.total) ∧
      (∀ q ∈ groupRollup key df,
        convert_amount c lo.total ≤ convert_amount c q.total) ∧
      (∀ q ∈ groupRollup key df,
        convert_amount c q.total = convert_amount c hi.total → hi.key ≤ q.key) ∧
      (∀ q ∈ groupRollup key df,
        convert_amount c q.total = convert_amount c lo.total → lo.key ≤ q.key) := by
  rcases firstMaxRow_spec (fun r => convert_amount c r.total) (groupRollup key df)
    (rollup_pairwise_keys key df) hne with ⟨hi, hi_eq, hi_mem, hi_max, hi_tie⟩
  rcases firstMinRow_spec (fun r => convert_amount c r.total) (groupRollup key df)
    (rollup_pairwise_keys key df) hne with ⟨lo, lo_eq, lo_mem, lo_min, lo_tie⟩
  exact ⟨hi, lo, hi_eq, lo_eq, hi_mem, lo_mem, hi_max, lo_min, hi_tie, lo_tie⟩

/-- Two months with the equal expenditure 500: the spec's tie example. -/
def dfW4 : List Tx := [⟨115, [], -500⟩, ⟨215, [], -500⟩]

/-- Witness for C4, mirroring the spec's tie example: two monthly buckets
(months 1 and 2) with equal totals 500; the max scan returns the earlier
bucket, month 1. -/
theorem C4_extremes_earliest_key_on_ties_witness :
    (∃ hi lo,
      firstMaxRow (fun r => convert_amount Currency.PKR r.total)
          (groupRollup monthKey dfW4) = some hi ∧
      firstMinRow (fun r => convert_amount Currency.PKR r.total)
          (groupRollup monthKey dfW4) = some lo ∧
      hi ∈ groupRollup monthKey dfW4 ∧ lo ∈ groupRollup monthKey dfW4 ∧
      (∀ q ∈ groupRollup monthKey dfW4,
        convert_amount Currency.PKR q.total ≤ convert_amount Currency.PKR hi.total) ∧
      (∀ q ∈ groupRollup monthKey dfW4,
        convert_amount Currency.PKR lo.total ≤ convert_amount Currency.PKR q.total) ∧
      (∀ q ∈ groupRollup monthKey dfW4,
        convert_amount Currency.PKR q.total = convert_amount Currency.PKR hi.total →
          hi.key ≤ q.key) ∧
      (∀ q ∈ groupRollup monthKey dfW4,
        convert_amount Currency.PKR q.total = convert_amount Currency.PKR lo.total →
          lo.key ≤ q.key)) ∧
    firstMaxRow (fun r => convert_amount Currency.PKR r.total)
        (groupRollup monthKey dfW4)
      = some { key := 1, total := 500, count := 1 } :=
  ⟨C4_extremes_earliest_key_on_ties Nat monthKey Currency.PKR dfW4
     (by with_unfolding_all decide),
   by with_unfolding_all decide⟩

/-! ### Currency conversion claims (src/app.py lines 40-45) -/

/-- Counterexample to C8 as stated: `convert_amount` always converts a
stored base-currency (PKR) amount to the display currency and is the
identity when the target is the base currency, so the claimed round trip
`convert(convert(x, USD, rate), PKR, rate)` evaluates to `x / rate`, not
`x`: at `x = 280` it returns 1, a deviation of 279 that no rounding
tolerance covers. -/
theorem C8_counterexample :
    convert_amount Currency.PKR (convert_amount Currency.USD 280) = 1 ∧
      ¬ convert_amount Currency.PKR (convert_amount Currency.USD 280) = (280 : ℚ) := by
  have h1 : convert_amount Currency.PKR (convert_amount Currency.USD 280) = 1 := by
    show (280 : ℚ) / EXCHANGE_RATE = 1
    norm_num [EXCHANGE_RATE]
  refine ⟨h1, ?_⟩
  rw [h1]
  norm_num

/-- C8 amended: `convert_amount` is the identity when the target is the base
currency (PKR) and divides by the fixed rate otherwise; the round trip that
recovers a converted amount is multiplication by the rate,
`EXCHANGE_RATE * convert_amount USD x = x`, exactly — not a second
application of `convert_amount`, which takes base-currency input and is the
identity at the base currency. -/
theorem C8_conversion_identity_and_inverse (x : ℚ) :
    convert_amount Currency.PKR x = x ∧
      convert_amount Currency.USD x = x / EXCHANGE_RATE ∧
      EXCHANGE_RATE * convert_amount Currency.USD x = x := by
  refine ⟨rfl, rfl, ?_⟩
  show EXCHANGE_RATE * (x / EXCHANGE_RATE) = x
  rw [mul_comm]
  exact div_mul_cancel₀ x (by norm_num [EXCHANGE_RATE])

/-! ### Payee extraction (src/app.py lines 431-449)

The four patterns of `extract_payee` all have the shape
`LITERAL\s+([^-]+)` under `re.IGNORECASE`. `re.search` tries start
positions left to right; at a position the literal must match
case-insensitively, then the greedy `\s+` consumes the whole whitespace
run; `([^-]+)` then needs at least one non-hyphen character, and when the
character after the run is a hyphen (or the string ends) the engine
backtracks one whitespace, which `[^-]+` then captures (possible only when
the run has length at least two). -/

/-- ASCII whitespace, the `\s` class as it occurs in statement text. -/
def isSpace (c : Char) : Bool :=
  c == ' ' || c == '\t' || c == '\n' || c == '\r' || c == '\x0b' || c == '\x0c'

/-- Case-insensitive character equality (re.IGNORECASE). -/
def lcEq (a b : Char) : Bool := a.toLower == b.toLower

/-- Case-insensitive literal match at the start of the text. -/
def startsWithCI : List Char → List Char → Bool
  | [], _ => true
  | _ :: _, [] => false
  | p :: ps, c :: cs => lcEq p c && startsWithCI ps cs

/-- Continuation of `LITERAL\s+([^-]+)` once the literal has matched:
`rest` is the text after the literal; returns the captured group. -/
def capAfter (rest : List Char) : Option (List Char) :=
  let sp := rest.takeWhile isSpace
  let after := rest.drop sp.length
  if sp.isEmpty then none
  else
    match after with
    | [] => if 2 ≤ sp.length then some [sp.getLastD ' '] else none
    | c :: _ =>
      if c = '-' then (if 2 ≤ sp.length then some [sp.getLastD ' '] else none)
      else some (after.takeWhile (fun x => x != '-'))

/-- Match of `LITERAL\s+([^-]+)` anchored at the start of the text. -/
def matchAt (lit s : List Char) : Option (List Char) :=
  if startsWithCI lit s then capAfter (s.drop lit.length) else none

/-- Embedding of `re.search(LITERAL + r'\s+([^-]+)', s, re.IGNORECASE)`:
the leftmost start position that matches wins. -/
def searchCap (lit : List Char) : List Char → Option (List Char)
  | [] => matchAt lit []
  | c :: cs => (matchAt lit (c :: cs)).orElse (fun _ => searchCap lit cs)

/-- Python `str.strip()`: drop whitespace from both ends. -/
def pyStrip (s : List Char) : List Char :=
  ((s.dropWhile isSpace).reverse.dropWhile isSpace).reverse

/-- Python `str.split()` with no argument: whitespace-separated words. -/
def splitWordsAux : List Char → List Char → List (List Char)
  | [], acc => if acc.isEmpty then [] else [acc.reverse]
  | c :: cs, acc =>
    if isSpace c then
      (if acc.isEmpty then splitWordsAux cs [] else acc.reverse :: splitWordsAux cs [])
    else splitWordsAux cs (c :: acc)

/-- Python `description.split()`. -/
def splitWords (s : List Char) : List (List Char) := splitWordsAux s []

/-- Python `' '.join(ws)`. -/
def joinSpace : List (List Char) → List Char
  | [] => []
  | [w] => w
  | w :: ws => w ++ ' ' :: joinSpace ws

/-- Literal of the first pattern `Money Transferred to\s+([^-]+)`. -/
def patMoney : List Char := "Money Transferred to".toList

/-- Literal of the second, generic pattern `to\s+([^-]+)`. -/
def patTo : List Char := "to".toList

/-- Literal of the third pattern `Paid to\s+([^-]+)`. -/
def patPaid : List Char := "Paid to".toList

/-- Literal of the fourth pattern `Transfer to\s+([^-]+)`. -/
def patTransfer : List Char := "Transfer to".toList

/-- Embedding of `extract_payee` (src/app.py lines 431-449): the four
patterns are tried in order, the first match wins and its captured group is
returned stripped; with no match, the fallback returns the first three
whitespace-separated words plus an ellipsis when there are more than three
words, else the description itself, truncated to 30 characters plus an
ellipsis when longer. -/
def extract_payee (d : List Char) : List Char :=
  match searchCap patMoney d with
  | some g => pyStrip g
  | none =>
    match searchCap patTo d with
    | some g => pyStrip g
    | none =>
      match searchCap patPaid d with
      | some g => pyStrip g
      | none =>
        match searchCap patTransfer d with
        | some g => pyStrip g
        | none =>
          if 3 < (splitWords d).length then
            joinSpace ((splitWords d).take 3) ++ "...".toList
          else if 30 < d.length then
            d.take 30 ++ "...".toList
          else d

/-- C7: `extract_payee` is a total deterministic function of the description
implementing the ordered cascade: the patterns "Money Transferred to X",
generic "to X", "Paid to X", "Transfer to X" (X captured up to the next
hyphen, case-insensitive, leftmost occurrence) are tried in priority order,
the first matching pattern wins and its captured fragment is returned
trimmed of surrounding whitespace; when none matches, the result is the
first three whitespace-separated words plus an ellipsis when the
description has more than three words, else the description itself,
truncated to 30 characters plus an ellipsis when longer. -/
theorem C7_extract_payee_priority_cascade (d : List Char) :
    (∀ g, searchCap patMoney d = some g → extract_payee d = pyStrip g) ∧
    (searchCap patMoney d = none → ∀ g, searchCap patTo d = some g →
      extract_payee d = pyStrip g) ∧
    (searchCap patMoney d = none → searchCap patTo d = none →
      ∀ g, searchCap patPaid d = some g → extract_payee d = pyStrip g) ∧
    (searchCap patMoney d = none → searchCap patTo d = none →
      searchCap patPaid d = none → ∀ g, searchCap patTransfer d = some g →
      extract_payee d = pyStrip g) ∧
    (searchCap patMoney d = none → searchCap patTo d = none →
      searchCap patPaid d = none → searchCap patTransfer d = none →
      extract_payee d =
        if 3 < (splitWords d).length then
          joinSpace ((splitWords d).take 3) ++ "...".toList
        else if 30 < d.length then
          d.take 30 ++ "...".toList
        else d) := by
  refine ⟨?_, ?_, ?_, ?_, ?_⟩
  · intro g h
    simp [extract_payee, h]
  · intro h1 g h
    simp [extract_payee, h1, h]
  · intro h1 h2 g h
    simp [extract_payee, h1, h2, h]
  · intro h1 h2 h3 g h
    simp [extract_payee, h1, h2, h3, h]
  · intro h1 h2 h3 h4
    simp [extract_payee, h1, h2, h3, h4]

/-- Concrete description used to instantiate C7. -/
def dW7 : List Char := "Money Transferred to Ali - ref".toList

/-- Witness for C7: the first pattern matches `dW7` capturing "Ali " and the
extractor returns it stripped. -/
theorem C7_extract_payee_priority_cascade_witness :
    searchCap patMoney dW7 = some ("Ali ".toList) ∧
      extract_payee dW7 = pyStrip ("Ali ".toList) :=
  ⟨by decide, (C7_extract_payee_priority_cascade dW7).1 ("Ali ".toList) (by decide)⟩

/-! ### Redundancy of the last two patterns (claim C10) -/

/-- Reduced extractor stated by the claim: only the first two patterns
("Money Transferred to X" and generic "to X") followed by the same
fallback. -/
def extractPayeeReduced (d : List Char) : List Char :=
  match searchCap patMoney d with
  | some g => pyStrip g
  | none =>
    match searchCap patTo d with
    | some g => pyStrip g
    | none =>
      if 3 < (splitWords d).length then
        joinSpace ((splitWords d).take 3) ++ "...".toList
      else if 30 < d.length then
        d.take 30 ++ "...".toList
      else d

lemma startsWithCI_append (a b s : List Char) (h : startsWithCI (a ++ b) s = true) :
    startsWithCI b (s.drop a.length) = true := by
  induction a generalizing s with
  | nil => simpa using h
  | cons x xs ih =>
    cases s with
    | nil => simp [startsWithCI] at h
    | cons c cs =>
      rw [List.cons_append, startsWithCI, Bool.and_eq_true] at h
      simpa using ih cs h.2

lemma matchAt_append (a b s g : List Char) (h : matchAt (a ++ b) s = some g) :
    matchAt b (s.drop a.length) = some g := by
  unfold matchAt at h ⊢
  by_cases hs : startsWithCI (a ++ b) s = true
  · rw [if_pos (startsWithCI_append a b s hs)]
    rw [if_pos hs] at h
    rw [List.drop_drop]
    rw [List.length_append] at h
    exact h
  · rw [if_neg hs] at h
    cases h

lemma searchCap_some_suffix (lit s g : List Char) (h : searchCap lit s = some g) :
    ∃ t, t <:+ s ∧ matchAt lit t = some g := by
  induction s with
  | nil => exact ⟨[], List.nil_suffix, by simpa [searchCap] using h⟩
  | cons c cs ih =>
    rw [searchCap] at h
    cases hm : matchAt lit (c :: cs) with
    | some g' =>
      rw [hm] at h
      simp only [Option.orElse] at h
      exact ⟨c :: cs, List.suffix_refl _, by rw [hm, ← h]⟩
    | none =>
      rw [hm] at h
      simp only [Option.orElse] at h
      rcases ih h with ⟨t, ht, hm'⟩
      exact ⟨t, ht.trans (List.suffix_cons c cs), hm'⟩

lemma searchCap_eq_none (lit : List Char) :
    ∀ s, searchCap lit s = none → ∀ t, t <:+ s → matchAt lit t = none := by
  intro s
  induction s with
  | nil =>
    intro h t ht
    rw [List.suffix_nil] at ht
    subst ht
    simpa [searchCap] using h
  | cons c cs ih =>
    intro h t ht
    rw [searchCap] at h
    cases hm : matchAt lit (c :: cs) with
    | some g =>
      rw [hm] at h
      simp only [Option.orElse] at h
      cases h
    | none =>
      rw [hm] at h
      simp only [Option.orElse] at h
      rcases List.suffix_cons_iff.mp ht with rfl | ht'
      · exact hm
      · exact ih h t ht'

lemma searchCap_paid_none (d : List Char) (h : searchCap patTo d = none) :
    searchCap patPaid d = none := by
  cases hp : searchCap patPaid d with
  | none => rfl
  | some g =>
    exfalso
    rcases searchCap_some_suffix patPaid d g hp with ⟨t, ht, hm⟩
    have hsplit : patPaid = "Paid ".toList ++ patTo := by decide
    rw [hsplit] at hm
    have h2 := matchAt_append ("Paid ".toList) patTo t g hm
    have hsuf : t.drop ("Paid ".toList).length <:+ d :=
      (List.drop_suffix _ t).trans ht
    rw [searchCap_eq_none patTo d h _ hsuf] at h2
    cases h2

lemma searchCap_transfer_none (d : List Char) (h : searchCap patTo d = none) :
    searchCap patTransfer d = none := by
  cases hp : searchCap patTransfer d with
  | none => rfl
  | some g =>
    exfalso
    rcases searchCap_some_suffix patTransfer d g hp with ⟨t, ht, hm⟩
    have hsplit : patTransfer = "Transfer ".toList ++ patTo := by decide
    rw [hsplit] at hm
    have h2 := matchAt_append ("Transfer ".toList) patTo t g hm
    have hsuf : t.drop ("Transfer ".toList).length <:+ d :=
      (List.drop_suffix _ t).trans ht
    rw [searchCap_eq_none patTo d h _ hsuf] at h2
    cases h2

/-- C10: the payee extractor returns the same label as the reduced extractor
that keeps only the first two patterns: whenever "Paid to X" or
"Transfer to X" matches somewhere in the description, the generic "to X"
pattern (tried before them) also matches — the literal "Paid to" /
"Transfer to" ends in "to" followed by the same whitespace and capture — so
the last two patterns never determine the output. -/
theorem C10_reduced_extractor_equivalent (d : List Char) :
    extract_payee d = extractPayeeReduced d := by
  cases h1 : searchCap patMoney d with
  | some g => simp [extract_payee, extractPayeeReduced, h1]
  | none =>
    cases h2 : searchCap patTo d with
    | some g => simp [extract_payee, extractPayeeReduced, h1, h2]
    | none =>
      simp [extract_payee, extractPayeeReduced, h1, h2,
        searchCap_paid_none d h2, searchCap_transfer_none d h2]

/-! ### Transfer exclusion (spec section 4.2) -/

/-- Case-insensitive substring containment, Python's
`pattern.lower() in text.lower()`. -/
def containsCI (pat : List Char) : List Char → Bool
  | [] => startsWithCI pat []
  | c :: cs => startsWithCI pat (c :: cs) || containsCI pat cs

/-- Modelled from the spec: no transfer-exclusion classifier exists in
src/app.py; spec section 4.2 defines it as flagging a transaction iff its
description contains "to <name>" as a case-insensitive substring for some
configured excluded-counterparty name. -/
def is_excluded_transfer (names : List (List Char)) (desc : List Char) : Bool :=
  names.any (fun n => containsCI ("to ".toList ++ n) desc)

lemma startsWithCI_iff_lower (p : List Char) :
    ∀ s, startsWithCI p s = true ↔ p.map Char.toLower <+: s.map Char.toLower := by
  induction p with
  | nil => intro s; simp [startsWithCI]
  | cons x xs ih =>
    intro s
    cases s with
    | nil =>
      simp [startsWithCI]
    | cons c cs =>
      rw [startsWithCI, Bool.and_eq_true, List.map_cons, List.map_cons,
        List.cons_prefix_cons]
      constructor
      · rintro ⟨h1, h2⟩
        exact ⟨by simpa [lcEq] using h1, (ih cs).mp h2⟩
      · rintro ⟨h1, h2⟩
        exact ⟨by simpa [lcEq] using h1, (ih cs).mpr h2⟩

lemma containsCI_iff_lower (p : List Char) :
    ∀ s, containsCI p s = true ↔ p.map Char.toLower <:+: s.map Char.toLower := by
  intro s
  induction s with
  | nil =>
    rw [containsCI, startsWithCI_iff_lower]
    simp
  | cons c cs ih =>
    rw [containsCI, Bool.or_eq_true, startsWithCI_iff_lower, ih, List.map_cons,
      List.infix_cons_iff]

/-- C6 (modelled from the spec, section 4.2): a transaction is flagged as an
excluded transfer iff its description contains "to <name>" as a
case-insensitive substring for some configured name; in particular
"Transfer to Daniyal - ref123" with excluded name "Daniyal" is flagged and
"Transfer to Zainab" with only "Daniyal" excluded is not. -/
theorem C6_transfer_exclusion_iff (names : List (List Char)) (desc : List Char) :
    (is_excluded_transfer names desc = true ↔
      ∃ n ∈ names,
        ("to ".toList ++ n).map Char.toLower <:+: desc.map Char.toLower) ∧
    is_excluded_transfer ["Daniyal".toList] "Transfer to Daniyal - ref123".toList
      = true ∧
    is_excluded_transfer ["Daniyal".toList] "Transfer to Zainab".toList = false := by
  refine ⟨?_, by decide, by decide⟩
  unfold is_excluded_transfer
  rw [List.any_eq_true]
  constructor
  · rintro ⟨n, hn, h⟩
    exact ⟨n, hn, (containsCI_iff_lower _ _).mp h⟩
  · rintro ⟨n, hn, h⟩
    exact ⟨n, hn, (containsCI_iff_lower _ _).mpr h⟩

/-- Witness for C6 at the spec's example: the flagged description indeed
contains "to daniyal" as a lowered substring. -/
theorem C6_transfer_exclusion_iff_witness :
    ∃ n ∈ ["Daniyal".toList],
      ("to ".toList ++ n).map Char.toLower <:+:
        ("Transfer to Daniyal - ref123".toList).map Char.toLower :=
  ((C6_transfer_exclusion_iff ["Daniyal".toList]
    ("Transfer to Daniyal - ref123".toList)).1).mp (by decide)

/-! ### Top-20 payees (src/app.py lines 423-467) -/

/-- Payee rollup (src/app.py lines 451-460): expense rows labelled with
`extract_payee` of their description, grouped by the payee label (group
keys sorted, pandas default), with the absolute summed amount and the
transaction count per payee. -/
def payee_totals_pkr (df : List Tx) : List (AggRow (List Char)) :=
  groupRollup (fun t => extract_payee t.description) df

/-- Descending-by-displayed-amount comparison used by
`nlargest(20, 'Amount_Display')`. -/
def dispGE (c : Currency) (a b : AggRow (List Char)) : Bool :=
  decide (convert_amount c b.total ≤ convert_amount c a.total)

/-- Embedding of `payee_totals.nlargest(20, 'Amount_Display')` with the
default `keep='first'` (src/app.py line 467): a stable descending sort on
the displayed amount followed by the first 20 rows. -/
def top_20_payees (c : Currency) (df : List Tx) : List (AggRow (List Char)) :=
  ((payee_totals_pkr df).mergeSort (dispGE c)).take 20

lemma dispGE_trans (c : Currency) : ∀ (a b d : AggRow (List Char)),
    dispGE c a b = true → dispGE c b d = true → dispGE c a d = true := by
  intro a b d h1 h2
  rw [dispGE, decide_eq_true_eq] at *
  exact le_trans h2 h1

lemma dispGE_total (c : Currency) : ∀ (a b : AggRow (List Char)),
    (dispGE c a b || dispGE c b a) = true := by
  intro a b
  rcases le_total (convert_amount c b.total) (convert_amount c a.total) with h | h
  · simp [dispGE, h]
  · simp [dispGE, h]

lemma rollup_nodup {κ : Type} [LinearOrder κ] (key : Tx → κ) (df : List Tx) :
    (groupRollup key df).Nodup := by
  refine (rollup_pairwise_keys key df).imp ?_
  intro a b h he
  rw [he] at h
  exact lt_irrefl _ h

lemma pair_sublist_of_pairwise_keys {κ : Type} [LinearOrder κ] :
    ∀ (l : List (AggRow κ)) (a b : AggRow κ),
      l.Pairwise (fun x y => x.key < y.key) → a ∈ l → b ∈ l → a.key < b.key →
      List.Sublist [a, b] l := by
  intro l
  induction l with
  | nil =>
    intro a b _ ha
    cases ha
  | cons x xs ih =>
    intro a b hp ha hb hab
    rcases List.pairwise_cons.mp hp with ⟨hx, hxs⟩
    rcases List.mem_cons.mp ha with rfl | ha'
    · rcases List.mem_cons.mp hb with rfl | hb'
      · exact absurd hab (lt_irrefl _)
      · exact List.Sublist.cons₂ a (List.singleton_sublist.mpr hb')
    · rcases List.mem_cons.mp hb with rfl | hb'
      · exact absurd hab (lt_asymm (hx a ha'))
      · exact List.Sublist.cons x (ih a b hxs ha' hb' hab)

lemma pair_sublist_decomp {α : Type} : ∀ (s : List α) (a b : α),
    List.Sublist [a, b] s → ∃ u v, s = u ++ a :: v ∧ b ∈ v := by
  intro s
  induction s with
  | nil =>
    intro a b h
    cases h
  | cons x xs ih =>
    intro a b h
    cases h with
    | cons _ h' =>
      rcases ih a b h' with ⟨u, v, rfl, hb⟩
      exact ⟨x :: u, v, rfl, hb⟩
    | cons₂ _ h' =>
      exact ⟨[], xs, rfl, List.singleton_sublist.mp h'⟩

/-- C5 amended: `top_20_payees` keeps exactly the 20 rows with the largest
displayed totals, and at equal totals the selection follows the sorted
payee-label order of the groupby output — among tied payees, whenever one
with a larger label is selected, every tied payee with a smaller label is
selected too (first-encountered input order plays no role). -/
theorem C5_top20_largest_label_order_ties (c : Currency) (df : List Tx) :
    (top_20_payees c df).length = min 20 (payee_totals_pkr df).length ∧
    (∀ q ∈ payee_totals_pkr df, q ∉ top_20_payees c df →
      ∀ p ∈ top_20_payees c df,
        convert_amount c q.total ≤ convert_amount c p.total) ∧
    (∀ p ∈ payee_totals_pkr df, ∀ q ∈ payee_totals_pkr df,
      convert_amount c p.total = convert_amount c q.total → p.key < q.key →
      q ∈ top_20_payees c df → p ∈ top_20_payees c df) := by
  have hperm := List.mergeSort_perm (payee_totals_pkr df) (dispGE c)
  have hsorted := List.sorted_mergeSort (dispGE_trans c) (dispGE_total c)
    (payee_totals_pkr df)
  refine ⟨?_, ?_, ?_⟩
  · show (((payee_totals_pkr df).mergeSort (dispGE c)).take 20).length = _
    rw [List.length_take, List.length_mergeSort]
  · intro q hq hqnot p hp
    have hp2 : p ∈ ((payee_totals_pkr df).mergeSort (dispGE c)).take 20 := hp
    have hqnot2 : q ∉ ((payee_totals_pkr df).mergeSort (dispGE c)).take 20 := hqnot
    have hqs : q ∈ (payee_totals_pkr df).mergeSort (dispGE c) :=
      hperm.mem_iff.mpr hq
    rw [← List.take_append_drop 20 ((payee_totals_pkr df).mergeSort (dispGE c))]
      at hqs
    rcases List.mem_append.mp hqs with hq1 | hq2
    · exact absurd hq1 hqnot2
    · have hsplit : List.Pairwise (fun a b => dispGE c a b = true)
          (((payee_totals_pkr df).mergeSort (dispGE c)).take 20 ++
            ((payee_totals_pkr df).mergeSort (dispGE c)).drop 20) := by
        rw [List.take_append_drop]
        exact hsorted
      have hcross := (List.pairwise_append.mp hsplit).2.2 p hp2 q hq2
      rw [dispGE, decide_eq_true_eq] at hcross
      exact hcross
  · intro p hp q hq heq hkey hqtop
    have hpair : List.Sublist [p, q] (payee_totals_pkr df) :=
      pair_sublist_of_pairwise_keys _ p q
        (rollup_pairwise_keys (fun t => extract_payee t.description) df) hp hq hkey
    have hle : dispGE c p q = true := by
      rw [dispGE, decide_eq_true_eq, heq]
    have hsub : List.Sublist [p, q] ((payee_totals_pkr df).mergeSort (dispGE c)) :=
      List.pair_sublist_mergeSort (dispGE_trans c) (dispGE_total c) hle hpair
    rcases pair_sublist_decomp _ p q hsub with ⟨u, v, hsv, hqv⟩
    have hnodup : ((payee_totals_pkr df).mergeSort (dispGE c)).Nodup :=
      hperm.nodup_iff.mpr (rollup_nodup _ df)
    show p ∈ ((payee_totals_pkr df).mergeSort (dispGE c)).take 20
    by_cases hu : u.length < 20
    · rw [hsv, List.take_append_eq_append_take]
      apply List.mem_append.mpr
      right
      cases hn : 20 - u.length with
      | zero => omega
      | succ m =>
        rw [List.take_succ_cons]
        exact List.mem_cons_self p _
    · exfalso
      have hqtop' : q ∈ ((payee_totals_pkr df).mergeSort (dispGE c)).take 20 := hqtop
      rw [hsv, List.take_append_eq_append_take,
        Nat.sub_eq_zero_of_le (not_lt.mp hu), List.take_zero,
        List.append_nil] at hqtop'
      have hqu : q ∈ u := List.mem_of_mem_take hqtop'
      rw [hsv] at hnodup
      rcases List.nodup_append.mp hnodup with ⟨_, _, hdisj⟩
      exact hdisj hqu (List.mem_cons_of_mem p hqv)

/-- Input realizing the spec's top-N example: payees Alpha and Beta tied at
300 with Gamma at 100. -/
def dfW5 : List Tx :=
  [⟨101, "Money Transferred to Alpha - x".toList, -300⟩,
   ⟨101, "Money Transferred to Beta - x".toList, -300⟩,
   ⟨101, "Money Transferred to Gamma - x".toList, -100⟩]

/-- Payee row for Alpha in `dfW5`. -/
def rowA : AggRow (List Char) := ⟨"Alpha".toList, 300, 1⟩

/-- Payee row for Beta in `dfW5`. -/
def rowB : AggRow (List Char) := ⟨"Beta".toList, 300, 1⟩

/-- Witness for the amended C5: on `dfW5`, the tied rows Alpha and Beta are
both selected, with the tie resolved by label order. -/
theorem C5_top20_largest_label_order_ties_witness :
    rowA ∈ payee_totals_pkr dfW5 ∧ rowB ∈ payee_totals_pkr dfW5 ∧
      convert_amount Currency.PKR rowA.total = convert_amount Currency.PKR rowB.total ∧
      rowA.key < rowB.key ∧ rowB ∈ top_20_payees Currency.PKR dfW5 ∧
      rowA ∈ top_20_payees Currency.PKR dfW5 :=
  ⟨by with_unfolding_all decide, by with_unfolding_all decide,
   by with_unfolding_all decide, by with_unfolding_all decide,
   by with_unfolding_all decide,
   (C5_top20_largest_label_order_ties Currency.PKR dfW5).2.2 rowA
     (by with_unfolding_all decide) rowB (by with_unfolding_all decide)
     (by with_unfolding_all decide) (by with_unfolding_all decide)
     (by with_unfolding_all decide)⟩

/-- Counterexample input for C5: 21 payees, the first-encountered "Zz"
followed by "P10" .. "P29", each with a single expense of 300. -/
def dfC5 : List Tx :=
  ⟨101, "Money Transferred to Zz - x".toList, -300⟩ ::
    (List.range 20).map (fun i =>
      ⟨101, ("Money Transferred to P" ++ toString (10 + i) ++ " - x").toList, -300⟩)

/-- Counterexample to C5 as stated: on `dfC5` all 21 payees are tied at
total 300 and "Zz" is the first-encountered payee, so a boundary selection
that preserves first-encountered input order among equal totals would keep
"Zz"; the code's `nlargest(20, ..., keep='first')` runs on the
alphabetically sorted groupby output, keeps the 20 alphabetically smallest
labels, and drops "Zz". -/
theorem C5_counterexample :
    extract_payee ((dfC5.headD ⟨0, [], 0⟩).description) = "Zz".toList ∧
      "Zz".toList ∈ (payee_totals_pkr dfC5).map AggRow.key ∧
      (∀ q ∈ payee_totals_pkr dfC5, q.total = 300) ∧
      (payee_totals_pkr dfC5).length = 21 ∧
      "Zz".toList ∉ (top_20_payees Currency.PKR dfC5).map AggRow.key := by
  refine ⟨?_, ?_, ?_, ?_, ?_⟩ <;> with_unfolding_all decide

/-! ### Record parsing (spec sections 4.1 and 7; src/app.py lines 48-56 and
594-596)

The source delegates parsing to `pd.read_csv` / `pd.to_datetime` and wraps
the whole display in one `except` that aborts everything on any error, so
the typed `ParseError` contract exists only in the spec; the parser below
is modelled from spec section 4.1. -/

/-- A raw CSV row: column name to cell text. -/
abbrev RawRow : Type := List (List Char × List Char)

/-- Cell of a named column, when the column is present. -/
def lookupCol (col : List Char) (r : RawRow) : Option (List Char) :=
  match r.find? (fun p => p.fst == col) with
  | some p => some p.snd
  | none => none

/-- Nonempty all-digit numeral. -/
def parseNat (s : List Char) : Option Nat :=
  if s.isEmpty then none
  else if s.all Char.isDigit then
    some (s.foldl (fun acc c => 10 * acc + (c.toNat - 48)) 0)
  else none

/-- Modelled from the spec: unsigned decimal numeral with an optional
fractional part. -/
def parseUnsigned (s : List Char) : Option ℚ :=
  let intPart := s.takeWhile (fun c => c != '.')
  match s.drop intPart.length with
  | [] => (parseNat intPart).map (fun n => (n : ℚ))
  | _ :: frac =>
    match parseNat intPart, parseNat frac with
    | some n, some f => some ((n : ℚ) + (f : ℚ) / ((10 : ℚ) ^ frac.length))
    | _, _ => none

/-- Modelled from the spec: signed decimal `Amount` parser (section 4.1
requires `Amount` to parse as a decimal number, else `ParseError`). -/
def parseAmount (s : List Char) : Option ℚ :=
  match s with
  | '-' :: rest => (parseUnsigned rest).map (fun q => -q)
  | _ => parseUnsigned s

/-- Modelled from the spec: `Date` parser for `Y-M-D` numerals, producing
the `yyyymmdd` encoding used by `Tx.date` (section 4.1 requires `Date` to
parse as a calendar date, else `ParseError`). -/
def parseDate (s : List Char) : Option Nat :=
  match s.splitOn '-' with
  | [y, m, d] =>
    match parseNat y, parseNat m, parseNat d with
    | some yy, some mm, some dd => some (yy * 10000 + mm * 100 + dd)
    | _, _, _ => none
  | _ => none

/-- Modelled from the spec: a load failure carrying the offending row index
and column (spec sections 4.1 and 7). -/
structure ParseError where
  row : Nat
  col : List Char
deriving DecidableEq

/-- Modelled from the spec: parse one raw row. The required columns are
`Date`, `Description` and `Amount`; a missing column or an unparseable value
reports the offending column. -/
def parseRow (r : RawRow) : Except (List Char) Tx :=
  match lookupCol ("Date".toList) r with
  | none => Except.error ("Date".toList)
  | some ds =>
    match lookupCol ("Description".toList) r with
    | none => Except.error ("Description".toList)
    | some desc =>
      match lookupCol ("Amount".toList) r with
      | none => Except.error ("Amount".toList)
      | some as =>
        match parseDate ds with
        | none => Except.error ("Date".toList)
        | some dt =>
          match parseAmount as with
          | none => Except.error ("Amount".toList)
          | some am => Except.ok { date := dt, description := desc, amount := am }

/-- Row-by-row load from a start index: the first failing row aborts the
whole load with its index and column; otherwise all rows are returned, in
order. -/
def parseRowsFrom (i : Nat) : List RawRow → Except ParseError (List Tx)
  | [] => Except.ok []
  | r :: rs =>
    match parseRow r with
    | Except.error c => Except.error ⟨i, c⟩
    | Except.ok t =>
      match parseRowsFrom (i + 1) rs with
      | Except.error e => Except.error e
      | Except.ok ts => Except.ok (t :: ts)

/-- Modelled from the spec: the all-or-nothing table load (spec section 4.1,
matching the whole-display abort of src/app.py lines 594-596). -/
def parseTable (rows : List RawRow) : Except ParseError (List Tx) :=
  parseRowsFrom 0 rows

lemma parseRowsFrom_ok_length :
    ∀ (rs : List RawRow) (i : Nat) (ts : List Tx),
      parseRowsFrom i rs = Except.ok ts → ts.length = rs.length := by
  intro rs
  induction rs with
  | nil =>
    intro i ts h
    rw [parseRowsFrom] at h
    cases h
    rfl
  | cons r rest ih =>
    intro i ts h
    rw [parseRowsFrom] at h
    cases hr : parseRow r with
    | error c =>
      rw [hr] at h
      cases h
    | ok t =>
      rw [hr] at h
      cases hrec : parseRowsFrom (i + 1) rest with
      | error e =>
        rw [hrec] at h
        cases h
      | ok ts' =>
        rw [hrec] at h
        cases h
        simp [ih (i + 1) ts' hrec]

lemma parseRowsFrom_error_at :
    ∀ (rs : List RawRow) (n i : Nat) (r : RawRow) (c : List Char),
      rs[i]? = some r → parseRow r = Except.error c →
      (∀ j rj, j < i → rs[j]? = some rj → ∃ t, parseRow rj = Except.ok t) →
      parseRowsFrom n rs = Except.error ⟨n + i, c⟩ := by
  intro rs
  induction rs with
  | nil =>
    intro n i r c hget
    simp at hget
  | cons r0 rest ih =>
    intro n i r c hget herr hprev
    cases i with
    | zero =>
      rw [List.getElem?_cons_zero] at hget
      cases hget
      rw [parseRowsFrom, herr]
      rfl
    | succ i' =>
      rcases hprev 0 r0 (Nat.succ_pos i') List.getElem?_cons_zero with ⟨t0, ht0⟩
      rw [List.getElem?_cons_succ] at hget
      have hrec := ih (n + 1) i' r c hget herr (fun j rj hj hg =>
        hprev (j + 1) rj (Nat.succ_lt_succ hj) (by rw [List.getElem?_cons_succ]; exact hg))
      rw [parseRowsFrom, ht0, hrec]
      have : n + 1 + i' = n + (i' + 1) := by omega
      rw [this]

/-- C9 (modelled from the spec): loading a table is all-or-nothing — a
successful load returns one transaction per input row with none skipped,
and any row whose `Amount` or `Date` fails to parse (or that misses a
required column) makes the whole load fail with a `ParseError` carrying the
offending row index and column, with no partial result. -/
theorem C9_parse_error_all_or_nothing (rows : List RawRow) :
    (∀ ts, parseTable rows = Except.ok ts → ts.length = rows.length) ∧
    (∀ i r c, rows[i]? = some r → parseRow r = Except.error c →
      (∀ j rj, j < i → rows[j]? = some rj → ∃ t, parseRow rj = Except.ok t) →
      parseTable rows = Except.error ⟨i, c⟩) := by
  constructor
  · intro ts h
    exact parseRowsFrom_ok_length rows 0 ts h
  · intro i r c hget herr hprev
    have h := parseRowsFrom_error_at rows 0 i r c hget herr hprev
    simpa using h

/-- Concrete two-row table whose second row has the non-numeric Amount
"abc". -/
def rowsW9 : List RawRow :=
  [[("Date".toList, "1-1-1".toList), ("Description".toList, "Opening".toList),
    ("Amount".toList, "100".toList)],
   [("Date".toList, "1-1-2".toList), ("Description".toList, "Bad".toList),
    ("Amount".toList, "abc".toList)]]

/-- Witness for C9: on `rowsW9` the load fails with the `ParseError` naming
row 1 and column Amount. -/
theorem C9_parse_error_all_or_nothing_witness :
    parseTable rowsW9 = Except.error ⟨1, "Amount".toList⟩ :=
  (C9_parse_error_all_or_nothing rowsW9).2 1
    [("Date".toList, "1-1-2".toList), ("Description".toList, "Bad".toList),
     ("Amount".toList, "abc".toList)]
    ("Amount".toList) (by decide) (by with_unfolding_all rfl)
    (by
      intro j rj hj hg
      have hj0 : j = 0 := Nat.lt_one_iff.mp hj
      subst hj0
      rw [show rowsW9[0]? = some [("Date".toList, "1-1-1".toList),
        ("Description".toList, "Opening".toList),
        ("Amount".toList, "100".toList)] from rfl] at hg
      cases hg
      exact ⟨⟨10101, "Opening".toList, 100⟩, by with_unfolding_all rfl⟩)

end Meezan
